import Mathlib

/-!
Verification of the `stockburn` data pipeline against its specification.

The Rust sources are shallowly embedded:

* `f64` values are modelled by `RFloat`: an exact rational together with the
  three IEEE-754 special values `inf`, `ninf` and `nan`.  Arithmetic follows
  the IEEE semantics used by Rust (`NaN` propagation, signed infinities,
  `f64::max`/`f64::min` ignoring a `NaN` operand).  The model uses exact
  rational arithmetic (no rounding, no overflow) and a single zero.
* `chrono` values are integers: `NaiveDateTime` timestamps are integer
  nanoseconds or minutes (stated at each use site), `Date` is an integer
  day number where day `0` is a Monday (weekday numbering
  `0 = Mon .. 5 = Sat, 6 = Sun`, matching `chrono::Weekday` order).
* Iterators become Lean lists or explicit state-stepping functions;
  `Peekable` iterators become lists whose head is the peeked element.
* `F::powf` (used only by `ExpScaler::update`) is the one operation the
  rational model cannot compute; it is passed as an explicit function
  parameter, so every theorem quantifies over it.
-/

/-! ## A model of Rust `f64` values (src: values of type `F = CpuFloat`) -/

/-- Model of a Rust `f64`: an exact rational, `+inf`, `-inf` or `NaN`. -/
inductive RFloat : Type
  | fin : ℚ → RFloat
  | inf : RFloat
  | ninf : RFloat
  | nan : RFloat
deriving DecidableEq

namespace RFloat

/-- Model of `f64::is_finite`. -/
def isFinite : RFloat → Bool
  | fin _ => true
  | _ => false

/-- IEEE negation. -/
def neg : RFloat → RFloat
  | fin q => fin (-q)
  | inf => ninf
  | ninf => inf
  | nan => nan

/-- IEEE addition (exact on finite values; `inf + -inf = NaN`). -/
def add : RFloat → RFloat → RFloat
  | nan, _ => nan
  | _, nan => nan
  | fin a, fin b => fin (a + b)
  | fin _, inf => inf
  | fin _, ninf => ninf
  | inf, fin _ => inf
  | inf, inf => inf
  | inf, ninf => nan
  | ninf, fin _ => ninf
  | ninf, inf => nan
  | ninf, ninf => ninf

/-- IEEE subtraction, `a - b = a + (-b)`. -/
def sub (a b : RFloat) : RFloat := a.add b.neg

/-- IEEE multiplication (`0 * inf = NaN`). -/
def mul : RFloat → RFloat → RFloat
  | nan, _ => nan
  | _, nan => nan
  | fin a, fin b => fin (a * b)
  | fin a, inf => if a = 0 then nan else if 0 < a then inf else ninf
  | fin a, ninf => if a = 0 then nan else if 0 < a then ninf else inf
  | inf, fin b => if b = 0 then nan else if 0 < b then inf else ninf
  | ninf, fin b => if b = 0 then nan else if 0 < b then ninf else inf
  | inf, inf => inf
  | inf, ninf => ninf
  | ninf, inf => ninf
  | ninf, ninf => inf

/-- IEEE division (single-zero model: a zero divisor behaves as `+0`). -/
def div : RFloat → RFloat → RFloat
  | nan, _ => nan
  | _, nan => nan
  | fin a, fin b =>
      if b = 0 then (if a = 0 then nan else if 0 < a then inf else ninf)
      else fin (a / b)
  | fin _, inf => fin 0
  | fin _, ninf => fin 0
  | inf, fin b => if 0 ≤ b then inf else ninf
  | ninf, fin b => if 0 ≤ b then ninf else inf
  | inf, inf => nan
  | inf, ninf => nan
  | ninf, inf => nan
  | ninf, ninf => nan

/-- Model of `f64::abs`. -/
def abs : RFloat → RFloat
  | fin q => fin |q|
  | inf => inf
  | ninf => inf
  | nan => nan

/-- Model of Rust `f64::max` (the trait method `num::Float::max` delegates to
it): returns the other operand when one operand is `NaN`. -/
def fmax : RFloat → RFloat → RFloat
  | nan, b => b
  | a, nan => a
  | inf, _ => inf
  | _, inf => inf
  | ninf, b => b
  | a, ninf => a
  | fin a, fin b => if a ≤ b then fin b else fin a

/-- Model of Rust `f64::min`: returns the other operand when one operand is
`NaN`. -/
def fmin : RFloat → RFloat → RFloat
  | nan, b => b
  | a, nan => a
  | ninf, _ => ninf
  | _, ninf => ninf
  | inf, b => b
  | a, inf => a
  | fin a, fin b => if a ≤ b then fin a else fin b

/-- IEEE equality test `==` (`NaN` is not equal to anything, including
itself). -/
def beq : RFloat → RFloat → Bool
  | fin a, fin b => decide (a = b)
  | inf, inf => true
  | ninf, ninf => true
  | _, _ => false

/-- IEEE comparison `<=` (false whenever an operand is `NaN`). -/
def ble : RFloat → RFloat → Bool
  | nan, _ => false
  | _, nan => false
  | ninf, _ => true
  | _, ninf => false
  | _, inf => true
  | inf, _ => false
  | fin a, fin b => decide (a ≤ b)

/-- The interval membership `x ∈ [-3, 3]` under IEEE comparisons (false for
`NaN`). -/
def inBounds (x : RFloat) : Bool := ble (fin (-3)) x && ble x (fin 3)

end RFloat

/-! ## The exponential scaler (src/src/data/scale/mod.rs) -/

/-- Embedding of `ExpScaler<F>` (src/src/data/scale/mod.rs, lines 11-21):
a window for exponential scaling. -/
structure ExpScaler : Type where
  /-- The exponential moving average of the input data. -/
  average : RFloat
  /-- The exponential moving average's decay parameter. -/
  average_decay : RFloat
  /-- The range of the input data. -/
  range : RFloat
  /-- The range decay parameter. -/
  range_decay : RFloat
deriving DecidableEq

/-- Embedding of `clip` (scale/mod.rs lines 23-26):
`value.max(-range).min(range)`. -/
def clip (value range : RFloat) : RFloat := (value.fmax range.neg).fmin range

/-- Embedding of `util::to_s` composed with `Duration::num_nanoseconds`
(src/src/util.rs): a duration is an integer number of nanoseconds `dt`, and
`to_s` divides by `10^9` (exact in the rational model). -/
def to_s (dt : ℤ) : RFloat := RFloat.fin ((dt : ℚ) / 1000000000)

/-- Embedding of `ExpScaler::start` (scale/mod.rs lines 33-41). -/
def ExpScaler.start (start average_decay range_decay : RFloat) : ExpScaler :=
  { average := start, average_decay := average_decay,
    range := RFloat.fin 0, range_decay := range_decay }

/-- Embedding of `ExpScaler::scale` (scale/mod.rs lines 42-56), exactly as
written in the source: note that the first test is `if val.is_finite()`
(without negation), so the early `return 0` fires on finite inputs. -/
def ExpScaler.scale (self : ExpScaler) (val : RFloat) : RFloat :=
  if val.isFinite then RFloat.fin 0
  else if self.range.beq (RFloat.fin 0) then RFloat.fin 0
  else
    let clip_range := (self.range.add self.range).add self.range
    let diff := val.sub self.average
    let clipped := clip diff clip_range
    clipped.div self.range

/-- Embedding of `ExpScaler::update` (scale/mod.rs lines 57-72).  `powf`
stands for `F::powf`, which the rational model cannot compute; it is taken
as a parameter.  The range update reads `self.average` before the average
is replaced, exactly as the Rust mutation order does. -/
def ExpScaler.update (powf : RFloat → RFloat → RFloat) (self : ExpScaler)
    (val : RFloat) (dt : ℤ) : ExpScaler :=
  if !val.isFinite then self
  else
    let dt_s := to_s dt
    let diff := (val.sub self.average).abs
    let range' := (self.range.fmax diff).mul self.range_decay
    let old_proportion := powf self.average_decay dt_s
    let new_proportion := (RFloat.fin 1).sub old_proportion
    { self with
      range := range',
      average := (new_proportion.mul val).add (old_proportion.mul self.average) }

/-- The states an `ExpScaler` can reach from `ExpScaler::start` by any
sequence of `update` calls (any values, any durations). -/
inductive Reach (powf : RFloat → RFloat → RFloat) (x0 ad rd : RFloat) :
    ExpScaler → Prop
  | start : Reach powf x0 ad rd (ExpScaler.start x0 ad rd)
  | step (s : ExpScaler) (val : RFloat) (dt : ℤ) :
      Reach powf x0 ad rd s → Reach powf x0 ad rd (s.update powf val dt)

/-! ## Ticks and predictions (src/src/data/mod.rs) -/

/-- Embedding of `Tick<F>` (src/src/data/mod.rs lines 16-34).  The timestamp
`t` is an integer (nanoseconds for the scaler, minutes for the batcher tests;
only its ordering and equality are ever used). -/
structure Tick : Type where
  /-- This tick's timestamp in UTC. -/
  t : ℤ
  /-- The volume traded this tick. -/
  v : RFloat
  /-- The volume weighted average price of this tick. -/
  vw : RFloat
  /-- The opening price of this tick. -/
  o : RFloat
  /-- The closing price of this tick. -/
  c : RFloat
  /-- The high price of this tick. -/
  h : RFloat
  /-- The low price of this tick. -/
  l : RFloat
  /-- The number of trades which occured during this tick. -/
  n : RFloat
deriving DecidableEq

/-- Embedding of `Prediction<F>` (data/mod.rs lines 151-157). -/
structure Prediction : Type where
  /-- Predicted closing price. -/
  c : RFloat
  /-- Predicted volume. -/
  v : RFloat
deriving DecidableEq

/-- `Tick::NN_FIELDS` (data/mod.rs line 38). -/
def Tick.NN_FIELDS : ℕ := 7

/-- `Prediction::NN_FIELDS` (data/mod.rs line 181). -/
def Prediction.NN_FIELDS : ℕ := 2

/-- Embedding of `Tick::push_tick` (data/mod.rs lines 46-54): the seven
values appended to the input vector, in source order o, h, l, c, v, vw, n.
(`NumCast::from(..).unwrap_or(0.0)` is the identity in this model, since the
batch element type is the same float model.) -/
def Tick.push_tick (tk : Tick) : List RFloat :=
  [tk.o, tk.h, tk.l, tk.c, tk.v, tk.vw, tk.n]

/-- Embedding of `Tick::pred` (data/mod.rs lines 56-61). -/
def Tick.pred (tk : Tick) : Prediction := { c := tk.c, v := tk.v }

/-- Embedding of `Prediction::push_pred` (data/mod.rs lines 189-192). -/
def Prediction.push_pred (p : Prediction) : List RFloat := [p.c, p.v]

/-- `iter::repeat(0.0).take(n)` appended to a vector: `n` zero floats. -/
def zerosF (n : ℕ) : List RFloat := List.replicate n (RFloat.fin 0)

/-! ## The multi-stream batcher (src/src/lstm/mod.rs, `make_batches_impl`) -/

/-- One step of the `min_t` bookkeeping in step 4.c of `make_batches_impl`
(lstm/mod.rs lines 98-106): `if let Some(t) = min_t { if tick.t < t { min_t =
Some(tick.t) } } else { min_t = Some(tick.t) }`. -/
def updateMinT (minT : Option ℤ) (t : ℤ) : Option ℤ :=
  match minT with
  | some m => if t < m then some t else some m
  | none => some t

/-- The input-tick scan of one row, step 4.c of `make_batches_impl`
(lstm/mod.rs lines 87-115).  Each stream is a list whose head is the peeked
tick.  Returns the row's input values (7 per stream), the advanced streams,
and the final `min_t` accumulator.  Streams are scanned left to right, as the
Rust `for` loop does. -/
def scanInputs (currT : ℤ) : List (List Tick) → Option ℤ →
    List RFloat × List (List Tick) × Option ℤ
  | [], minT => ([], [], minT)
  | s :: rest, minT =>
    match s with
    | [] =>
      let r := scanInputs currT rest minT
      (zerosF Tick.NN_FIELDS ++ r.1, [] :: r.2.1, r.2.2)
    | tick :: more =>
      if tick.t = currT then
        let minT1 :=
          match more with
          | [] => minT
          | next :: _ => updateMinT minT next.t
        let r := scanInputs currT rest minT1
        (tick.push_tick ++ r.1, more :: r.2.1, r.2.2)
      else
        let r := scanInputs currT rest minT
        (zerosF Tick.NN_FIELDS ++ r.1, s :: r.2.1, r.2.2)

/-- The output-tick scan of one row, step 4.e of `make_batches_impl`
(lstm/mod.rs lines 120-135): per stream, if the (possibly just advanced)
peeked tick's timestamp equals the current time, push its prediction fields,
else zero-fill.  The iterators are not advanced. -/
def scanOutputs (currT : ℤ) : List (List Tick) → List RFloat
  | [] => []
  | s :: rest =>
    (match s with
     | [] => zerosF Prediction.NN_FIELDS
     | tick :: _ =>
       if tick.t = currT then tick.pred.push_pred else zerosF Prediction.NN_FIELDS)
    ++ scanOutputs currT rest

/-- The mutable state threaded through the row loop of `make_batches_impl`:
the tick iterators, the `additional` iterator, the virtual clock `curr_t`,
and the two flat vectors being filled. -/
structure BatchState : Type where
  /-- The tick streams (peekable iterators). -/
  streams : List (List Tick)
  /-- The remaining elements of the `additional` iterator. -/
  additional : List (List RFloat)
  /-- The virtual clock `curr_t`. -/
  currT : ℤ
  /-- The flat input vector built so far. -/
  input : List RFloat
  /-- The flat output vector built so far. -/
  output : List RFloat

/-- One iteration of the row loop of `make_batches_impl` (lstm/mod.rs lines
75-136): steps 4.a (additional data, truncated or zero-padded to
`additional_inputs`), 4.b (time data from the caller-supplied `time_func`,
modelled as a pure function of the clock), 4.c (input tick scan), 4.d
(advance `curr_t` to `min_t` when some stream advanced), 4.e (output scan
against the new clock and the advanced streams). -/
def rowStep (additional_inputs : ℕ) (timeFunc : ℤ → List RFloat)
    (st : BatchState) : BatchState :=
  let addPair : List (List RFloat) × List RFloat :=
    match st.additional with
    | a :: rest =>
      (rest, a.take additional_inputs ++ zerosF (additional_inputs - a.length))
    | [] => ([], zerosF additional_inputs)
  let timeVals := timeFunc st.currT
  let scanned := scanInputs st.currT st.streams none
  let currT' :=
    match scanned.2.2 with
    | some t => t
    | none => st.currT
  let outVals := scanOutputs currT' scanned.2.1
  { streams := scanned.2.1,
    additional := addPair.1,
    currT := currT',
    input := st.input ++ addPair.2 ++ timeVals ++ scanned.1,
    output := st.output ++ outVals }

/-- The row loop: `for _row in 0..rows`. -/
def iterRows (additional_inputs : ℕ) (timeFunc : ℤ → List RFloat) :
    ℕ → BatchState → BatchState
  | 0, st => st
  | n + 1, st => iterRows additional_inputs timeFunc n
      (rowStep additional_inputs timeFunc st)

/-- The peeked timestamps of the streams: `tick_iterators.iter_mut()
.filter_map(|ticks| ticks.peek().map(|tick| tick.t))` (lstm/mod.rs lines
69-71). -/
def streamHeadTs (streams : List (List Tick)) : List ℤ :=
  streams.filterMap (fun s => s.head?.map Tick.t)

/-- `Iterator::min` on a list of integers, as a left fold (ties and order do
not matter on a total order; `none` exactly on the empty list). -/
def listMinFold (l : List ℤ) : Option ℤ := l.foldl updateMinT none

/-- Embedding of `StockLSTM::make_batches_impl` (lstm/mod.rs lines 35-152).

The `stocks` count and the `assert_eq!(tick_iterators.len(), stocks)` are
omitted: the assert is a panic (a programming-contract violation, not a
return path), and every later use of the stock count in the source reads
`tick_iterators.len()`.  The resulting tensors are returned as the two flat
`f32` vectors; the final `Tensor::view` reshape to `(batch_size,
sequence_length, features)` succeeds exactly when the flat lengths equal the
product of those dimensions, so shape claims are stated on flat lengths. -/
def make_batches_impl (additional_inputs date_inputs : ℕ)
    (additional : List (List RFloat)) (timeFunc : ℤ → List RFloat)
    (streams : List (List Tick)) (batch_size sequence_length : ℕ) :
    Option (List RFloat × List RFloat) :=
  match listMinFold (streamHeadTs streams) with
  | none => none
  | some t0 =>
    let rows := batch_size * sequence_length
    let final := iterRows additional_inputs timeFunc rows
      { streams := streams, additional := additional, currT := t0,
        input := [], output := [] }
    some (final.input, final.output)

/-- The next-timestamps of exactly those streams whose peeked tick would be
consumed at clock `currT` (peeked tick's timestamp equals `currT`): for each
such stream, the timestamp its advanced iterator is then waiting to emit (a
consumed stream that becomes empty contributes nothing). -/
def consumedNexts (currT : ℤ) (streams : List (List Tick)) : List ℤ :=
  streams.filterMap (fun s =>
    match s with
    | [] => none
    | tick :: more => if tick.t = currT then more.head?.map Tick.t else none)

/-! ## The trading calendar (src/src/data/fake.rs, lines 211-282)

Dates are integer day numbers; day `0` is a Monday, so the weekday of day
`d` is `d % 7` with `0 = Mon, ..., 5 = Sat, 6 = Sun` (the order of
`chrono::Weekday`).  Times-of-day are integer minutes since midnight UTC;
a full timestamp is an integer count of minutes, `day * 1440 + minute`,
since `NASDAQMinutes` only ever steps in whole minutes from a whole-minute
start. -/

/-- Embedding of `naive_utc_is_nasdaq_trading_day` (fake.rs lines 216-222):
`match date.weekday() { Sat => false, Sun => false, _ => true }`. -/
def naive_utc_is_nasdaq_trading_day (d : ℤ) : Bool :=
  if d % 7 = 5 then false
  else if d % 7 = 6 then false
  else true

/-- The `while !is_nasdaq_trading_day(self.0) { self.0 = self.0.succ() }`
loop of `NASDAQDays::next` (fake.rs lines 252-254), as a fuel-bounded
search for the first trading day at or after `d`.  Fuel 7 always suffices
(every window of 7 consecutive days contains a trading day); this is proved
below, so the `d + fuel` fallback of the model is never reached. -/
def skipToTradingDay : ℕ → ℤ → ℤ
  | 0, d => d
  | fuel + 1, d =>
    if naive_utc_is_nasdaq_trading_day d then d else skipToTradingDay fuel (d + 1)

/-- Embedding of the body of `NASDAQDays::next` (fake.rs lines 249-259):
skip to the next trading day, yield it, and store its successor. -/
def nasdaqDaysNext (d : ℤ) : ℤ × ℤ :=
  let result := skipToTradingDay 7 d
  (result, result + 1)

/-- `NASDAQDays::next` returns `Some(result)` unconditionally (fake.rs line
257): the iterator never terminates. -/
def nasdaqDaysNextO (d : ℤ) : Option (ℤ × ℤ) := some (nasdaqDaysNext d)

/-- The `NASDAQDays` iterator state after `n` calls to `next`, starting
from stored date `d`. -/
def nasdaqDaysState (d : ℤ) : ℕ → ℤ
  | 0 => d
  | n + 1 => (nasdaqDaysNext (nasdaqDaysState d n)).2

/-- The `n`-th date yielded by `NASDAQDays` starting from stored date `d`. -/
def nasdaqDaysYield (d : ℤ) (n : ℕ) : ℤ := (nasdaqDaysNext (nasdaqDaysState d n)).1

/-- The calendar date of a timestamp in minutes (floor division; `/` on `ℤ`
rounds toward negative infinity for this positive divisor). -/
def dateOfMinutes (t : ℤ) : ℤ := t / 1440

/-- `datetime.hour()` for a timestamp in minutes. -/
def hourOf (t : ℤ) : ℤ := t % 1440 / 60

/-- `datetime.minute()` for a timestamp in minutes. -/
def minuteOf (t : ℤ) : ℤ := t % 1440 % 60

/-- Embedding of `naitve_utc_is_nasdaq_trading_time` (fake.rs lines 232-242,
source-spelling preserved): requires a trading day, then matches the hour:
`14 => minute >= 30, 15..=20 => true, 21 => minute == 0, _ => false`. -/
def naitve_utc_is_nasdaq_trading_time (t : ℤ) : Bool :=
  if naive_utc_is_nasdaq_trading_day (dateOfMinutes t) then
    if hourOf t = 14 then decide (30 ≤ minuteOf t)
    else if 15 ≤ hourOf t ∧ hourOf t ≤ 20 then true
    else if hourOf t = 21 then decide (minuteOf t = 0)
    else false
  else false

/-- Embedding of `NASDAQMinutes::for_date` (fake.rs lines 265-270):
`date.and_hms(14, 30, 00)`, i.e. minute `14*60 + 30 = 870` of the day. -/
def nasdaqMinutesForDate (day : ℤ) : ℤ := day * 1440 + 870

/-- Embedding of `NASDAQMinutes::next` (fake.rs lines 272-282): if the
stored time is not a trading time return `None`, else yield it and advance
by one minute. -/
def nasdaqMinutesNext (t : ℤ) : Option (ℤ × ℤ) :=
  if naitve_utc_is_nasdaq_trading_time t then some (t, t + 1) else none

/-- Collect the outputs of up to `fuel` calls to `NASDAQMinutes::next`,
stopping at the first `None`. -/
def runMinutes : ℕ → ℤ → List ℤ
  | 0, _ => []
  | fuel + 1, t =>
    match nasdaqMinutesNext t with
    | none => []
    | some (r, t') => r :: runMinutes fuel t'

/-! ## The stochastic tick generator (src/src/data/fake.rs, lines 40-209)

`TickGen` is generic over its price and volume generators (the `TimedGen`
trait) and its time iterator.  The embedding keeps that genericity: the
generators are abstract state types `P` and `V` stepped by explicit
`next_after` functions, and the peekable time iterator is a list of
timestamps (in the same integer time unit as durations). -/

/-- Embedding of `Volume` (fake.rs lines 58-64): a volume,
number-of-trades pair. -/
structure FVolume : Type where
  /-- The volume of a tick. -/
  v : RFloat
  /-- The number of trades of a tick. -/
  n : RFloat
deriving DecidableEq

/-- Embedding of the fields of `TickGen` (fake.rs lines 40-56). -/
structure TickGenState (P V : Type) : Type where
  /-- The time generator in use (peekable; head = next element). -/
  time_gen : List ℤ
  /-- The price generator in use. -/
  price_gen : P
  /-- The volume generator in use. -/
  volume_gen : V
  /-- The previous closing price. -/
  close : RFloat

/-- `Iterator::sum` over four `f64` values: a left fold starting at `0.0`. -/
def sum4 (a b c d : RFloat) : RFloat :=
  ((((RFloat.fin 0).add a).add b).add c).add d

/-- `l.partial_cmp(r).unwrap_or(Less)` for the float model (used by the
`max_by` in fake.rs line 107). -/
def pcmpOrLess (a b : RFloat) : Ordering :=
  match a, b with
  | RFloat.nan, _ => Ordering.lt
  | _, RFloat.nan => Ordering.lt
  | RFloat.ninf, RFloat.ninf => Ordering.eq
  | RFloat.ninf, _ => Ordering.lt
  | _, RFloat.ninf => Ordering.gt
  | RFloat.inf, RFloat.inf => Ordering.eq
  | RFloat.inf, _ => Ordering.gt
  | _, RFloat.inf => Ordering.lt
  | RFloat.fin a, RFloat.fin b => compare a b

/-- `l.partial_cmp(r).unwrap_or(Greater)` (used by the `min_by` in fake.rs
line 111). -/
def pcmpOrGreater (a b : RFloat) : Ordering :=
  match a, b with
  | RFloat.nan, _ => Ordering.gt
  | _, RFloat.nan => Ordering.gt
  | RFloat.ninf, RFloat.ninf => Ordering.eq
  | RFloat.ninf, _ => Ordering.lt
  | _, RFloat.ninf => Ordering.gt
  | RFloat.inf, RFloat.inf => Ordering.eq
  | RFloat.inf, _ => Ordering.gt
  | _, RFloat.inf => Ordering.lt
  | RFloat.fin a, RFloat.fin b => compare a b

/-- `prices.iter().max_by(cmp)` over the four sampled prices: a reduction
keeping the later element on ties (`std` semantics). -/
def maxBy4 (cmp : RFloat → RFloat → Ordering) (p1 p2 p3 p4 : RFloat) : RFloat :=
  let m12 := if cmp p1 p2 = Ordering.gt then p1 else p2
  let m123 := if cmp m12 p3 = Ordering.gt then m12 else p3
  if cmp m123 p4 = Ordering.gt then m123 else p4

/-- `prices.iter().min_by(cmp)` over the four sampled prices: a reduction
keeping the earlier element on ties (`std` semantics). -/
def minBy4 (cmp : RFloat → RFloat → Ordering) (p1 p2 p3 p4 : RFloat) : RFloat :=
  let m12 := if cmp p1 p2 = Ordering.gt then p2 else p1
  let m123 := if cmp m12 p3 = Ordering.gt then p3 else m12
  if cmp m123 p4 = Ordering.gt then p4 else m123

/-- `volumes.iter().zip(prices.iter()).map(|(v, p)| v.v * p).sum()`
(fake.rs lines 115-119). -/
def vwSum4 (v1 v2 v3 v4 : FVolume) (p1 p2 p3 p4 : RFloat) : RFloat :=
  ((((RFloat.fin 0).add (v1.v.mul p1)).add (v2.v.mul p2)).add
    (v3.v.mul p3)).add (v4.v.mul p4)

/-- Embedding of `<TickGen as Iterator>::next` (fake.rs lines 73-132).
`priceNext` and `volumeNext` are the `TimedGen::next_after` methods of the
injected generators; durations are integers in the same unit as timestamps
and `dt / 4` is integer division, matching `chrono::Duration / 4`.  On the
`None` early-exit paths the partially advanced cursor state is discarded
(the Rust mutations up to that point are not observable through a returned
tick, and no claim concerns those paths). -/
def tickGenNext {P V : Type}
    (priceNext : P → ℤ → Option (RFloat × P))
    (volumeNext : V → ℤ → Option (FVolume × V))
    (st : TickGenState P V) : Option (Tick × TickGenState P V) :=
  match st.time_gen with
  | [] => none
  | old_time :: rest =>
    match rest with
    | [] => none
    | t :: _ =>
      let dt := t - old_time
      match volumeNext st.volume_gen (dt / 4) with
      | none => none
      | some (v1, g1) =>
        match volumeNext g1 (dt / 4) with
        | none => none
        | some (v2, g2) =>
          match volumeNext g2 (dt / 4) with
          | none => none
          | some (v3, g3) =>
            match volumeNext g3 (dt / 4) with
            | none => none
            | some (v4, g4) =>
              let v := sum4 v1.v v2.v v3.v v4.v
              if v.beq (RFloat.fin 0) then
                some ({ t := t, v := v, vw := st.close, o := st.close,
                        h := st.close, l := st.close, c := st.close,
                        n := RFloat.fin 0 },
                      { st with time_gen := rest, volume_gen := g4 })
              else
                match priceNext st.price_gen (dt / 4) with
                | none => none
                | some (p1, q1) =>
                  match priceNext q1 (dt / 4) with
                  | none => none
                  | some (p2, q2) =>
                    match priceNext q2 (dt / 4) with
                    | none => none
                    | some (p3, q3) =>
                      match priceNext q3 (dt / 4) with
                      | none => none
                      | some (p4, q4) =>
                        let c := p4
                        let vw := (vwSum4 v1 v2 v3 v4 p1 p2 p3 p4).div v
                        some ({ t := t, o := p1,
                                h := maxBy4 pcmpOrLess p1 p2 p3 p4,
                                l := minBy4 pcmpOrGreater p1 p2 p3 p4,
                                c := c, v := v, vw := vw,
                                n := sum4 v1.n v2.n v3.n v4.n },
                              { time_gen := rest, price_gen := q4,
                                volume_gen := g4, close := c })

/-! ## The polygon CSV reader (src/src/data/polygon/mod.rs, `read_ticks`
with an explicit date format, lines 14-53)

The external parsers are modelled by their results: a CSV cell carries what
`NaiveDateTime::parse_from_str` (with the supplied format) and
`f64::from_str` would return for it.  A CSV record is the list of its
cells; records that the `csv` crate itself failed to produce (the
`result.ok()?` line) are outside this model, which receives the
successfully read records. -/

/-- A raw CSV cell, represented by its two parse results. -/
structure ParsedCell : Type where
  /-- Result of `NaiveDateTime::parse_from_str(cell, date_format)`. -/
  asDate : Option ℤ
  /-- Result of `f64::from_str(cell)`. -/
  asNum : Option RFloat
deriving DecidableEq

/-- `f64::from_str(field).unwrap_or(f64::NAN)`. -/
def cellNum (c : ParsedCell) : RFloat := c.asNum.getD RFloat.nan

/-- One arm of the `match i` in `read_ticks` (polygon/mod.rs lines 40-48):
assign field `i` of the tick from cell `c` (`0 => v, 1 => vw, 2 => o,
3 => c, 4 => h, 5 => l, _ => n`). -/
def assignField (tk : Tick) (i : ℕ) (c : ParsedCell) : Tick :=
  match i with
  | 0 => { tk with v := cellNum c }
  | 1 => { tk with vw := cellNum c }
  | 2 => { tk with o := cellNum c }
  | 3 => { tk with c := cellNum c }
  | 4 => { tk with h := cellNum c }
  | 5 => { tk with l := cellNum c }
  | _ => { tk with n := cellNum c }

/-- Embedding of the per-record closure of `read_ticks` with an explicit
date format (polygon/mod.rs lines 24-51): take the first cell, parse it as
a date (dropping the record when that fails), start from a tick whose seven
numeric fields are all `NaN`, then fill fields from the next (up to) seven
cells, each defaulting to `NaN` when the cell does not parse as a float. -/
def read_ticks_row (record : List ParsedCell) : Option Tick :=
  match record with
  | [] => none
  | first :: rest =>
    match first.asDate with
    | none => none
    | some t =>
      let init : Tick :=
        { t := t, v := RFloat.nan, vw := RFloat.nan, o := RFloat.nan,
          c := RFloat.nan, h := RFloat.nan, l := RFloat.nan, n := RFloat.nan }
      some ((rest.take 7).enum.foldl (fun tk p => assignField tk p.1 p.2) init)

/-- Embedding of `read_ticks` with `Some(date_format)` (polygon/mod.rs
lines 22-53): `filter_map` of the per-record closure over the records. -/
def read_ticks (records : List (List ParsedCell)) : List Tick :=
  records.filterMap read_ticks_row

/-- Field `i` of a tick in the CSV column order `v, vw, o, c, h, l, n`. -/
def tickField (tk : Tick) (i : ℕ) : RFloat :=
  match i with
  | 0 => tk.v
  | 1 => tk.vw
  | 2 => tk.o
  | 3 => tk.c
  | 4 => tk.h
  | 5 => tk.l
  | _ => tk.n

/-- The seven CSV-order field values a successfully dated record yields:
position `i` comes from cell `i` of the remainder of the record, `NaN` when
the cell is absent or does not parse. -/
def cellVal (rest : List ParsedCell) (i : ℕ) : RFloat :=
  match rest.get? i with
  | some c => cellNum c
  | none => RFloat.nan

/-! ## Scaler theorems -/

/-- Claim C1 (code bug): the spec says `scale(value)` returns `0` when the
value is non-finite (or the range is `0`) and otherwise returns
`clamp(value - average, -3·range, 3·range) / range`; the code's finiteness
test is inverted (`if val.is_finite() { return 0 }`, contradicting the
comment "Return 0 for NaN and Inf" directly above it), so on a scaler with
`average = 0`, `range = 1` the code returns `0` for the finite input `5`
(the spec formula gives `3`) and `3` for the non-finite input `+inf` (the
spec says `0`). -/
theorem c1_scale_finite_check_inverted :
    ExpScaler.scale
        { average := RFloat.fin 0, average_decay := RFloat.fin (1 / 2),
          range := RFloat.fin 1, range_decay := RFloat.fin (1 / 2) }
        (RFloat.fin 5) = RFloat.fin 0
    ∧ ExpScaler.scale
        { average := RFloat.fin 0, average_decay := RFloat.fin (1 / 2),
          range := RFloat.fin 1, range_decay := RFloat.fin (1 / 2) }
        RFloat.inf = RFloat.fin 3 := by
  refine ⟨rfl, ?_⟩
  norm_num [ExpScaler.scale, RFloat.isFinite, RFloat.beq, clip, RFloat.sub,
    RFloat.add, RFloat.neg, RFloat.fmax, RFloat.fmin, RFloat.div]

/-- Claim C3: `update(value, dt)` leaves the state unchanged when `value`
is non-finite; otherwise it sets `range` to
`max(range, |value - average|) · range_decay` computed with the pre-update
average, and sets `average` to `(1 - d)·value + d·average` where
`d = average_decay ^ (dt in seconds)`, leaving both decay parameters
unchanged. -/
theorem c3_update_formula (powf : RFloat → RFloat → RFloat) (s : ExpScaler)
    (val : RFloat) (dt : ℤ) :
    s.update powf val dt =
      if val.isFinite then
        { average :=
            (((RFloat.fin 1).sub (powf s.average_decay (to_s dt))).mul val).add
              ((powf s.average_decay (to_s dt)).mul s.average),
          average_decay := s.average_decay,
          range := (s.range.fmax ((val.sub s.average).abs)).mul s.range_decay,
          range_decay := s.range_decay }
      else s := by
  cases hv : val.isFinite <;> simp [ExpScaler.update, hv]

/-- Claim C2 (counterexample): starting the scaler at the value `+inf`
(with both decays equal to `1 ∈ (0,1]`) and feeding one finite update makes
`range = +inf`; `scale(NaN)` then computes `(-inf) / (+inf) = NaN`, which
does not lie in `[-3, 3]`.  This is the code's real `f64` behaviour (the
arithmetic involves no rounding), so the claim as stated is false. -/
theorem c2_counterexample :
    ((ExpScaler.start RFloat.inf (RFloat.fin 1) (RFloat.fin 1)).update
        (fun _ _ => RFloat.fin 1) (RFloat.fin 0) 0).scale RFloat.nan = RFloat.nan
    ∧ RFloat.inBounds RFloat.nan = false := by
  constructor <;> rfl

/-- Claim C2 (amended): for every `ExpScaler` started via
`start(x0, average_decay, range_decay)` with decays in `(0,1]`, after any
sequence of `update` calls, `scale(value)` lies in `[-3, 3]` for every
*finite* input value.  The restriction to finite inputs is forced by the
code: a non-finite input can produce `NaN` (see the counterexample above),
and in real `f64` it can also produce a value just above `3` through
rounding at a reachable state such as `{average: 0.0, range: 0.1}`, where
`(0.1 + 0.1 + 0.1) / 0.1 = 3.0000000000000004` — an escape this exact
arithmetic model cannot exhibit.  For a finite input the inverted guard
(see C1) returns the literal `0.0` before any arithmetic is performed, so
the bound holds exactly there, rounding included. -/
theorem c2_scale_bounded (powf : RFloat → RFloat → RFloat) (x0 : RFloat)
    (qa qr : ℚ) (_hqa : 0 < qa ∧ qa ≤ 1) (_hqr : 0 < qr ∧ qr ≤ 1)
    (s : ExpScaler)
    (_hs : Reach powf x0 (RFloat.fin qa) (RFloat.fin qr) s)
    (q : ℚ) : (s.scale (RFloat.fin q)).inBounds = true := by
  norm_num [ExpScaler.scale, RFloat.isFinite, RFloat.inBounds, RFloat.ble]

/-- Witness for C2 (amended) at a concrete instance. -/
theorem c2_scale_bounded_witness :
    ((ExpScaler.start (RFloat.fin 0) (RFloat.fin 1) (RFloat.fin 1)).scale
      (RFloat.fin 5)).inBounds = true :=
  c2_scale_bounded (fun _ _ => RFloat.fin 1) (RFloat.fin 0) 1 1
    ⟨by norm_num, by norm_num⟩ ⟨by norm_num, by norm_num⟩
    _ Reach.start 5

/-! ## Batcher lemmas -/

theorem scanInputs_vals_length (t : ℤ) :
    ∀ (ss : List (List Tick)) (m : Option ℤ),
      (scanInputs t ss m).1.length = 7 * ss.length := by
  intro ss
  induction ss with
  | nil => intro m; rfl
  | cons s rest ih =>
    intro m
    cases s with
    | nil => simp [scanInputs, ih, zerosF, Tick.NN_FIELDS]; omega
    | cons tick more =>
      by_cases hq : tick.t = t
      · simp [scanInputs, hq, ih, Tick.push_tick]; omega
      · simp [scanInputs, hq, ih, zerosF, Tick.NN_FIELDS]; omega

theorem scanInputs_streams_length (t : ℤ) :
    ∀ (ss : List (List Tick)) (m : Option ℤ),
      (scanInputs t ss m).2.1.length = ss.length := by
  intro ss
  induction ss with
  | nil => intro m; rfl
  | cons s rest ih =>
    intro m
    cases s with
    | nil => simp [scanInputs, ih]
    | cons tick more =>
      by_cases hq : tick.t = t
      · simp [scanInputs, hq, ih]
      · simp [scanInputs, hq, ih]

theorem scanInputs_minT (t : ℤ) :
    ∀ (ss : List (List Tick)) (m : Option ℤ),
      (scanInputs t ss m).2.2 = (consumedNexts t ss).foldl updateMinT m := by
  intro ss
  induction ss with
  | nil => intro m; rfl
  | cons s rest ih =>
    intro m
    cases s with
    | nil => simp [scanInputs, consumedNexts, List.filterMap_cons, ih]
    | cons tick more =>
      by_cases hq : tick.t = t
      · cases more with
        | nil =>
          simp [scanInputs, hq, consumedNexts, List.filterMap_cons, ih]
        | cons next rest2 =>
          simp [scanInputs, hq, consumedNexts, List.filterMap_cons, ih]
      · simp [scanInputs, hq, consumedNexts, List.filterMap_cons, ih]

theorem scanOutputs_length (t : ℤ) :
    ∀ ss : List (List Tick), (scanOutputs t ss).length = 2 * ss.length := by
  intro ss
  induction ss with
  | nil => rfl
  | cons s rest ih =>
    cases s with
    | nil => simp [scanOutputs, ih, zerosF, Prediction.NN_FIELDS]; omega
    | cons tick more =>
      by_cases hq : tick.t = t
      · simp [scanOutputs, hq, ih, Prediction.push_pred]; omega
      · simp [scanOutputs, hq, ih, zerosF, Prediction.NN_FIELDS]; omega

theorem rowStep_streams_length (A : ℕ) (tf : ℤ → List RFloat) (st : BatchState) :
    (rowStep A tf st).streams.length = st.streams.length := by
  cases hadd : st.additional with
  | nil => simp [rowStep, hadd, scanInputs_streams_length]
  | cons a rest => simp [rowStep, hadd, scanInputs_streams_length]

theorem rowStep_input_length (A D : ℕ) (tf : ℤ → List RFloat)
    (htf : ∀ t, (tf t).length = D) (st : BatchState) :
    (rowStep A tf st).input.length
      = st.input.length + (A + D + 7 * st.streams.length) := by
  cases hadd : st.additional with
  | nil =>
    simp [rowStep, hadd, zerosF, htf, scanInputs_vals_length, List.length_append]
    omega
  | cons a rest =>
    simp [rowStep, hadd, zerosF, htf, scanInputs_vals_length,
      List.length_append, List.length_take]
    omega

theorem rowStep_output_length (A : ℕ) (tf : ℤ → List RFloat) (st : BatchState) :
    (rowStep A tf st).output.length = st.output.length + 2 * st.streams.length := by
  cases hadd : st.additional with
  | nil =>
    simp [rowStep, hadd, List.length_append, scanOutputs_length,
      scanInputs_streams_length]
  | cons a rest =>
    simp [rowStep, hadd, List.length_append, scanOutputs_length,
      scanInputs_streams_length]

theorem iterRows_lengths (A D : ℕ) (tf : ℤ → List RFloat)
    (htf : ∀ t, (tf t).length = D) :
    ∀ (n : ℕ) (st : BatchState),
      (iterRows A tf n st).streams.length = st.streams.length ∧
      (iterRows A tf n st).input.length
        = st.input.length + n * (A + D + 7 * st.streams.length) ∧
      (iterRows A tf n st).output.length
        = st.output.length + n * (2 * st.streams.length) := by
  intro n
  induction n with
  | zero => intro st; simp [iterRows]
  | succ n ih =>
    intro st
    have hunfold : iterRows A tf (n + 1) st = iterRows A tf n (rowStep A tf st) := rfl
    have hrs := rowStep_streams_length A tf st
    have hri := rowStep_input_length A D tf htf st
    have hro := rowStep_output_length A tf st
    obtain ⟨h1, h2, h3⟩ := ih (rowStep A tf st)
    refine ⟨?_, ?_, ?_⟩
    · rw [hunfold, h1, hrs]
    · rw [hunfold, h2, hri, hrs]; ring
    · rw [hunfold, h3, hro, hrs]; ring

theorem make_batches_lengths (A D : ℕ) (additional : List (List RFloat))
    (tf : ℤ → List RFloat) (htf : ∀ t, (tf t).length = D)
    (streams : List (List Tick)) (bs sl : ℕ) (inp out : List RFloat)
    (h : make_batches_impl A D additional tf streams bs sl = some (inp, out)) :
    inp.length = bs * sl * (A + D + streams.length * 7) ∧
    out.length = bs * sl * (streams.length * 2) := by
  unfold make_batches_impl at h
  cases hmin : listMinFold (streamHeadTs streams) with
  | none => rw [hmin] at h; exact absurd h (by simp)
  | some t0 =>
    rw [hmin] at h
    simp only [Option.some.injEq, Prod.mk.injEq] at h
    obtain ⟨h1, h2⟩ := h
    obtain ⟨hs, hi, ho⟩ := iterRows_lengths A D tf htf (bs * sl)
      { streams := streams, additional := additional, currT := t0,
        input := [], output := [] }
    constructor
    · rw [← h1, hi]; dsimp only [List.length_nil]; ring
    · rw [← h2, ho]; dsimp only [List.length_nil]; ring

/-- Claim C4: for `K` tick iterators, `A` additional inputs, `D` date
inputs, and a time function writing exactly `D` values per call, every
successful call to `make_batches` returns an input tensor of shape
`(batch_size, sequence_length, A + D + K·7)` and an output tensor of shape
`(batch_size, sequence_length, K·2)` — stated on the flat vectors, whose
lengths are exactly the products of those dimensions (the `Tensor::view`
reshape succeeds precisely then). -/
theorem c4_batch_shapes (A D : ℕ) (additional : List (List RFloat))
    (tf : ℤ → List RFloat) (streams : List (List Tick)) (bs sl : ℕ)
    (inp out : List RFloat) (htf : ∀ t, (tf t).length = D)
    (h : make_batches_impl A D additional tf streams bs sl = some (inp, out)) :
    inp.length = bs * sl * (A + D + streams.length * 7) ∧
    out.length = bs * sl * (streams.length * 2) :=
  make_batches_lengths A D additional tf htf streams bs sl inp out h

/-- Witness for C4: one stream holding one tick, a 1×1 batch with no
additional and no date inputs. -/
theorem c4_batch_shapes_witness :
    ([RFloat.fin 3, RFloat.fin 5, RFloat.fin 6, RFloat.fin 4, RFloat.fin 1,
        RFloat.fin 2, RFloat.fin 7] : List RFloat).length = 1 * 1 * (0 + 0 + 1 * 7) ∧
    ([RFloat.fin 0, RFloat.fin 0] : List RFloat).length = 1 * 1 * (1 * 2) :=
  c4_batch_shapes 0 0 [] (fun _ => [])
    [[{ t := 0, v := RFloat.fin 1, vw := RFloat.fin 2, o := RFloat.fin 3,
        c := RFloat.fin 4, h := RFloat.fin 5, l := RFloat.fin 6,
        n := RFloat.fin 7 }]] 1 1 _ _ (fun _ => rfl) rfl

theorem streamHeadTs_nil_iff (streams : List (List Tick)) :
    streamHeadTs streams = [] ↔ streams.all List.isEmpty = true := by
  induction streams with
  | nil => simp [streamHeadTs]
  | cons s rest ih =>
    cases s with
    | nil => simpa [streamHeadTs, List.filterMap_cons] using ih
    | cons tick more => simp [streamHeadTs, List.filterMap_cons]

theorem foldl_updateMinT_some (l : List ℤ) :
    ∀ m : ℤ, l.foldl updateMinT (some m) = some (l.foldl min m) := by
  induction l with
  | nil => intro m; rfl
  | cons x l ih =>
    intro m
    have hstep : updateMinT (some m) x = some (min m x) := by
      by_cases h : x < m
      · simp [updateMinT, h, min_eq_right (le_of_lt h)]
      · simp [updateMinT, h, min_eq_left (not_lt.1 h)]
    rw [List.foldl_cons, hstep, ih, List.foldl_cons]

theorem listMinFold_none_iff (l : List ℤ) : listMinFold l = none ↔ l = [] := by
  cases l with
  | nil => simp [listMinFold]
  | cons x l =>
    have h0 : updateMinT none x = some x := rfl
    simp [listMinFold, List.foldl_cons, h0, foldl_updateMinT_some]

/-- Claim C5: `make_batches` returns `None` if and only if every supplied
tick iterator is exhausted before the first row is produced (the initial
minimum-timestamp computation finds no peeked tick); and whenever some
stream still has a tick, the call succeeds and returns full-size tensors
(zero-filling exhausted streams row by row rather than failing). -/
theorem c5_none_iff_exhausted (A D : ℕ) (additional : List (List RFloat))
    (tf : ℤ → List RFloat) (streams : List (List Tick)) (bs sl : ℕ)
    (htf : ∀ t, (tf t).length = D) :
    (make_batches_impl A D additional tf streams bs sl = none
      ↔ streams.all List.isEmpty = true) ∧
    (streams.all List.isEmpty = false →
      ∃ inp out, make_batches_impl A D additional tf streams bs sl = some (inp, out) ∧
        inp.length = bs * sl * (A + D + streams.length * 7) ∧
        out.length = bs * sl * (streams.length * 2)) := by
  constructor
  · rw [← streamHeadTs_nil_iff, ← listMinFold_none_iff]
    unfold make_batches_impl
    cases hmin : listMinFold (streamHeadTs streams) <;> simp [hmin]
  · intro hne
    have hnonnil : ¬streamHeadTs streams = [] := by
      rw [streamHeadTs_nil_iff, hne]; simp
    cases hmin : listMinFold (streamHeadTs streams) with
    | none => exact absurd ((listMinFold_none_iff _).1 hmin) hnonnil
    | some t0 =>
      have hmk : make_batches_impl A D additional tf streams bs sl
          = some ((iterRows A tf (bs * sl)
              { streams := streams, additional := additional, currT := t0,
                input := [], output := [] }).input,
            (iterRows A tf (bs * sl)
              { streams := streams, additional := additional, currT := t0,
                input := [], output := [] }).output) := by
        unfold make_batches_impl
        rw [hmin]
      exact ⟨_, _, hmk, make_batches_lengths A D additional tf htf streams bs sl
        _ _ hmk⟩

/-- Witness for C5: two exhausted streams make the call return `None`. -/
theorem c5_none_iff_exhausted_witness :
    (make_batches_impl 0 0 [] (fun _ => []) ([[], []] : List (List Tick)) 1 1 = none
      ↔ ([[], []] : List (List Tick)).all List.isEmpty = true) ∧
    (([[], []] : List (List Tick)).all List.isEmpty = false →
      ∃ inp out, make_batches_impl 0 0 [] (fun _ => []) ([[], []] : List (List Tick)) 1 1
          = some (inp, out) ∧
        inp.length = 1 * 1 * (0 + 0 + 2 * 7) ∧
        out.length = 1 * 1 * (2 * 2)) :=
  c5_none_iff_exhausted 0 0 [] (fun _ => []) [[], []] 1 1 (fun _ => rfl)

/-- Claim C6: in each row produced by `make_batches`, after the input scan
the virtual clock is set to the minimum next-timestamp among exactly those
streams that consumed a tick in that row (those whose peeked tick's
timestamp equalled `curr_t`), and is left unchanged when that set
contributes no timestamp (in particular when no stream consumed a tick). -/
theorem c6_clock_advance (A : ℕ) (tf : ℤ → List RFloat) (st : BatchState) :
    (rowStep A tf st).currT =
      match consumedNexts st.currT st.streams with
      | [] => st.currT
      | a :: l => l.foldl min a := by
  have hmin := scanInputs_minT st.currT st.streams none
  cases hc : consumedNexts st.currT st.streams with
  | nil =>
    rw [hc] at hmin
    cases hadd : st.additional with
    | nil => simp [rowStep, hadd, hmin]
    | cons a rest => simp [rowStep, hadd, hmin]
  | cons a l =>
    rw [hc] at hmin
    have h0 : updateMinT none a = some a := rfl
    rw [List.foldl_cons, h0, foldl_updateMinT_some] at hmin
    cases hadd : st.additional with
    | nil => simp [rowStep, hadd, hmin]
    | cons x rest => simp [rowStep, hadd, hmin]

/-! ## Calendar lemmas -/

theorem trading_day_iff (d : ℤ) :
    naive_utc_is_nasdaq_trading_day d = true ↔ ¬(d % 7 = 5 ∨ d % 7 = 6) := by
  unfold naive_utc_is_nasdaq_trading_day
  split_ifs with h1 h2 <;> simp_all

theorem skipToTradingDay_ge (fuel : ℕ) : ∀ d : ℤ, d ≤ skipToTradingDay fuel d := by
  induction fuel with
  | zero => intro d; simp [skipToTradingDay]
  | succ n ih =>
    intro d
    by_cases h : naive_utc_is_nasdaq_trading_day d
    · simp [skipToTradingDay, h]
    · have := ih (d + 1)
      simp only [skipToTradingDay, h, if_false, Bool.false_eq_true]
      omega

theorem skipTradingDay_spec : ∀ (fuel : ℕ) (d : ℤ),
    (∃ k : ℤ, 0 ≤ k ∧ k < fuel ∧ naive_utc_is_nasdaq_trading_day (d + k) = true) →
    naive_utc_is_nasdaq_trading_day (skipToTradingDay fuel d) = true := by
  intro fuel
  induction fuel with
  | zero =>
    intro d ⟨k, hk0, hk, _⟩
    simp at hk
    omega
  | succ n ih =>
    intro d ⟨k, hk0, hk, htrad⟩
    by_cases h : naive_utc_is_nasdaq_trading_day d
    · simpa [skipToTradingDay, h] using h
    · have hk1 : k ≠ 0 := by
        rintro rfl
        rw [add_zero] at htrad
        exact absurd htrad (by simpa using h)
      rw [skipToTradingDay, if_neg (by simpa using h)]
      refine ih (d + 1) ⟨k - 1, by omega, by push_cast at hk ⊢; omega, ?_⟩
      rw [show d + 1 + (k - 1) = d + k by ring]
      exact htrad

theorem exists_trading_in_7 (d : ℤ) :
    ∃ k : ℤ, 0 ≤ k ∧ k < (7 : ℕ) ∧
      naive_utc_is_nasdaq_trading_day (d + k) = true := by
  refine ⟨(-d) % 7, Int.emod_nonneg _ (by norm_num), by push_cast; omega, ?_⟩
  rw [trading_day_iff]
  omega

theorem skipToTradingDay_is_trading (d : ℤ) :
    naive_utc_is_nasdaq_trading_day (skipToTradingDay 7 d) = true :=
  skipTradingDay_spec 7 d (exists_trading_in_7 d)

/-- Claim C8: every date yielded by `NASDAQDays` has a weekday that is
neither Saturday (`d % 7 = 5`) nor Sunday (`d % 7 = 6`), successive yielded
dates are strictly increasing, and `next` always returns `Some` (the
sequence is infinite; the skip loop terminates because every window of 7
consecutive days contains a trading day). -/
theorem c8_trading_days (d : ℤ) (n : ℕ) :
    (nasdaqDaysYield d n % 7 ≠ 5 ∧ nasdaqDaysYield d n % 7 ≠ 6) ∧
    nasdaqDaysYield d n < nasdaqDaysYield d (n + 1) ∧
    nasdaqDaysNextO (nasdaqDaysState d n)
      = some (nasdaqDaysYield d n, nasdaqDaysState d (n + 1)) := by
  refine ⟨?_, ?_, rfl⟩
  · have h := skipToTradingDay_is_trading (nasdaqDaysState d n)
    rw [trading_day_iff] at h
    push_neg at h
    exact h
  · have h1 : nasdaqDaysState d (n + 1) = nasdaqDaysYield d n + 1 := rfl
    have h2 := skipToTradingDay_ge 7 (nasdaqDaysState d (n + 1))
    have h3 : nasdaqDaysYield d (n + 1)
        = skipToTradingDay 7 (nasdaqDaysState d (n + 1)) := rfl
    omega

theorem trading_time_of_session (day : ℤ)
    (hday : naive_utc_is_nasdaq_trading_day day = true)
    (k : ℤ) (hk0 : 0 ≤ k) (hk : k ≤ 390) :
    naitve_utc_is_nasdaq_trading_time (day * 1440 + 870 + k) = true := by
  unfold naitve_utc_is_nasdaq_trading_time dateOfMinutes hourOf minuteOf
  have hdate : (day * 1440 + 870 + k) / 1440 = day := by omega
  have hmod : (day * 1440 + 870 + k) % 1440 = 870 + k := by omega
  rw [hdate, hmod, hday, if_pos rfl]
  split_ifs with h1 h2 h3 <;>
    first
    | rfl
    | (simp only [decide_eq_true_eq]; omega)
    | omega

theorem trading_time_close_plus_one (day : ℤ) :
    naitve_utc_is_nasdaq_trading_time (day * 1440 + 870 + 391) = false := by
  unfold naitve_utc_is_nasdaq_trading_time dateOfMinutes hourOf minuteOf
  have hdate : (day * 1440 + 870 + 391) / 1440 = day := by omega
  have hmod : (day * 1440 + 870 + 391) % 1440 = 1261 := by omega
  rw [hdate, hmod]
  have h60 : (1261 : ℤ) / 60 = 21 := by norm_num
  have h6m : (1261 : ℤ) % 60 = 1 := by norm_num
  rw [h60, h6m]
  cases hday : naive_utc_is_nasdaq_trading_day day
  · simp [hday]
  · norm_num [hday]

theorem runMinutes_session (m : ℕ) : ∀ (t : ℤ) (fuel : ℕ),
    (∀ i : ℤ, 0 ≤ i → i < m → naitve_utc_is_nasdaq_trading_time (t + i) = true) →
    naitve_utc_is_nasdaq_trading_time (t + m) = false →
    m < fuel →
    runMinutes fuel t = (List.range m).map (fun i : ℕ => t + (i : ℤ)) := by
  induction m with
  | zero =>
    intro t fuel hall hend hfuel
    cases fuel with
    | zero => omega
    | succ f =>
      have h0 : naitve_utc_is_nasdaq_trading_time t = false := by simpa using hend
      simp [runMinutes, nasdaqMinutesNext, h0]
  | succ m ih =>
    intro t fuel hall hend hfuel
    cases fuel with
    | zero => omega
    | succ f =>
      have h0 : naitve_utc_is_nasdaq_trading_time t = true := by
        have := hall 0 (le_refl 0) (by push_cast; omega)
        simpa using this
      have hall' : ∀ i : ℤ, 0 ≤ i → i < m →
          naitve_utc_is_nasdaq_trading_time (t + 1 + i) = true := by
        intro i hi0 hi
        have := hall (i + 1) (by omega) (by push_cast; omega)
        rw [show t + (i + 1) = t + 1 + i by ring] at this
        exact this
      have hend' : naitve_utc_is_nasdaq_trading_time (t + 1 + m) = false := by
        have h := hend
        push_cast at h
        rw [show t + ((m : ℤ) + 1) = t + 1 + m by ring] at h
        exact h
      have hrec := ih (t + 1) f hall' hend' (by omega)
      simp only [runMinutes, nasdaqMinutesNext, h0, if_true, hrec]
      rw [List.range_succ_eq_map, List.map_cons, List.map_map]
      congr 1
      · norm_num
      · congr 1
        funext i
        simp only [Function.comp, Nat.succ_eq_add_one]
        push_cast
        ring

/-- Claim C9: for a valid trading day, `NASDAQMinutes` starts at 14:30 UTC
(minute 870 of the day), advances in one-minute steps in strictly
increasing order, has the closing minute 21:00 UTC (minute 1260) as its
391st and last element, and then terminates (`next` at minute 1261 is
`None`, so a run with any larger fuel still yields exactly 391 minutes);
for a day that is not a trading day the sequence is empty. -/
theorem c9_trading_minutes (day : ℤ) :
    (naive_utc_is_nasdaq_trading_day day = false →
      nasdaqMinutesNext (nasdaqMinutesForDate day) = none) ∧
    (naive_utc_is_nasdaq_trading_day day = true →
      runMinutes 392 (nasdaqMinutesForDate day)
        = (List.range 391).map (fun i : ℕ => day * 1440 + 870 + (i : ℤ)) ∧
      nasdaqMinutesNext (day * 1440 + 870 + 391) = none) ∧
    hourOf (nasdaqMinutesForDate day) = 14 ∧
    minuteOf (nasdaqMinutesForDate day) = 30 ∧
    hourOf (day * 1440 + 1260) = 21 ∧ minuteOf (day * 1440 + 1260) = 0 := by
  refine ⟨?_, ?_, ?_, ?_, ?_, ?_⟩
  · intro hday
    have hfalse : naitve_utc_is_nasdaq_trading_time (nasdaqMinutesForDate day)
        = false := by
      unfold naitve_utc_is_nasdaq_trading_time dateOfMinutes nasdaqMinutesForDate
      have hdate : (day * 1440 + 870) / 1440 = day := by omega
      rw [hdate, hday]
      simp
    simp [nasdaqMinutesNext, hfalse]
  · intro hday
    have hend := trading_time_close_plus_one day
    constructor
    · have := runMinutes_session 391 (day * 1440 + 870) 392
        (fun i hi0 hi => trading_time_of_session day hday i hi0 (by push_cast at hi; omega))
        (by push_cast; exact hend) (by omega)
      simpa [nasdaqMinutesForDate] using this
    · simp [nasdaqMinutesNext, hend]
  · unfold hourOf nasdaqMinutesForDate; omega
  · unfold minuteOf nasdaqMinutesForDate; omega
  · unfold hourOf; omega
  · unfold minuteOf; omega

/-- Witness for C9: Saturday (day 5) yields an empty sequence; Monday
(day 0) yields the full session. -/
theorem c9_trading_minutes_witness :
    nasdaqMinutesNext (nasdaqMinutesForDate 5) = none ∧
    runMinutes 392 (nasdaqMinutesForDate 0)
      = (List.range 391).map (fun i : ℕ => 0 * 1440 + 870 + (i : ℤ)) :=
  ⟨(c9_trading_minutes 5).1 rfl, ((c9_trading_minutes 0).2.1 rfl).1⟩

/-! ## CSV reader lemmas -/

theorem read_row_eq (first : ParsedCell) (rest : List ParsedCell) (t : ℤ)
    (h : first.asDate = some t) :
    read_ticks_row (first :: rest) = some
      { t := t, v := cellVal rest 0, vw := cellVal rest 1, o := cellVal rest 2,
        c := cellVal rest 3, h := cellVal rest 4, l := cellVal rest 5,
        n := cellVal rest 6 } := by
  rcases rest with _ | ⟨c0, _ | ⟨c1, _ | ⟨c2, _ | ⟨c3, _ | ⟨c4, _ | ⟨c5, _ |
    ⟨c6, tail⟩⟩⟩⟩⟩⟩⟩ <;> simp only [read_ticks_row, h] <;> rfl

/-- Claim C7: for CSV input read with an explicit date format, a row whose
date cell parses still yields a `Tick` no matter which numeric cells fail
to parse (the row is never dropped for a numeric-cell failure), and each
failing numeric cell yields `NaN` in the corresponding field. -/
theorem c7_malformed_cells_nan (first : ParsedCell) (rest : List ParsedCell)
    (t : ℤ) (h : first.asDate = some t) :
    ∃ tk, read_ticks_row (first :: rest) = some tk ∧ tk.t = t ∧
      ∀ i : ℕ, i < 7 → ∀ c, rest.get? i = some c → c.asNum = none →
        tickField tk i = RFloat.nan := by
  refine ⟨_, read_row_eq first rest t h, rfl, ?_⟩
  intro i hi c hc hnum
  rw [List.get?_eq_getElem?] at hc
  interval_cases i <;> simp [tickField, cellVal, cellNum, hnum, hc]

/-- Witness for C7: a record whose date parses but whose only numeric cell
is junk still yields a tick, with that field `NaN`. -/
theorem c7_malformed_cells_nan_witness :
    ∃ tk, read_ticks_row
        [{ asDate := some 0, asNum := none }, { asDate := none, asNum := none }]
        = some tk ∧ tk.t = 0 ∧
      ∀ i : ℕ, i < 7 → ∀ c,
        ([{ asDate := none, asNum := none }] : List ParsedCell).get? i = some c →
        c.asNum = none → tickField tk i = RFloat.nan :=
  c7_malformed_cells_nan { asDate := some 0, asNum := none }
    [{ asDate := none, asNum := none }] 0 rfl

/-! ## Tick generator theorems -/

/-- Claim C10: whenever the four volumes sampled by `TickGen::next` sum to
exactly zero, the returned tick has `o`, `h`, `l`, `c`, `vw` all equal to
the previously stored closing price and `v = n = 0`, and the returned
generator state keeps the price generator's state and the stored close
unchanged (only the time cursor and the volume generator advance), so the
price random walk resumes unaffected at the next nonzero-volume tick. -/
theorem c10_zero_volume_frame {P V : Type}
    (priceNext : P → ℤ → Option (RFloat × P))
    (volumeNext : V → ℤ → Option (FVolume × V))
    (st : TickGenState P V) (old_time t : ℤ) (rest : List ℤ)
    (v1 v2 v3 v4 : FVolume) (g1 g2 g3 g4 : V)
    (htime : st.time_gen = old_time :: t :: rest)
    (h1 : volumeNext st.volume_gen ((t - old_time) / 4) = some (v1, g1))
    (h2 : volumeNext g1 ((t - old_time) / 4) = some (v2, g2))
    (h3 : volumeNext g2 ((t - old_time) / 4) = some (v3, g3))
    (h4 : volumeNext g3 ((t - old_time) / 4) = some (v4, g4))
    (hsum : sum4 v1.v v2.v v3.v v4.v = RFloat.fin 0) :
    tickGenNext priceNext volumeNext st = some
      ({ t := t, v := RFloat.fin 0, vw := st.close, o := st.close,
         h := st.close, l := st.close, c := st.close, n := RFloat.fin 0 },
       { time_gen := t :: rest, price_gen := st.price_gen,
         volume_gen := g4, close := st.close }) := by
  unfold tickGenNext
  rw [htime]
  simp only [h1, h2, h3, h4, hsum]
  norm_num [RFloat.beq]

/-- Witness for C10 at a concrete zero-volume step. -/
theorem c10_zero_volume_frame_witness :
    tickGenNext (fun (p : Unit) (_ : ℤ) => some (RFloat.fin 1, p))
        (fun (g : Unit) (_ : ℤ) =>
          some ({ v := RFloat.fin 0, n := RFloat.fin 0 }, g))
        { time_gen := [0, 60], price_gen := (), volume_gen := (),
          close := RFloat.fin 7 }
      = some
        ({ t := 60, v := RFloat.fin 0, vw := RFloat.fin 7, o := RFloat.fin 7,
           h := RFloat.fin 7, l := RFloat.fin 7, c := RFloat.fin 7,
           n := RFloat.fin 0 },
         { time_gen := [60], price_gen := (), volume_gen := (),
           close := RFloat.fin 7 }) :=
  c10_zero_volume_frame (fun (p : Unit) (_ : ℤ) => some (RFloat.fin 1, p))
    (fun (g : Unit) (_ : ℤ) => some ({ v := RFloat.fin 0, n := RFloat.fin 0 }, g))
    { time_gen := [0, 60], price_gen := (), volume_gen := (),
      close := RFloat.fin 7 }
    0 60 [] { v := RFloat.fin 0, n := RFloat.fin 0 }
    { v := RFloat.fin 0, n := RFloat.fin 0 } { v := RFloat.fin 0, n := RFloat.fin 0 }
    { v := RFloat.fin 0, n := RFloat.fin 0 } () () () ()
    rfl rfl rfl rfl rfl (by norm_num [sum4, RFloat.add])
